import Mathlib

/-
  Verification of the endpoint buffer/flow-control layer of the afrowii
  USB CDC-ACM driver (src/afrowii/usb/usb_reg_map.h, usb_cdcacm.c).

  Machine integers are modelled as `Nat`; the endpoint registers are 16-bit
  wide in hardware, bounds are carried explicitly where they matter.
-/

/-! ## Register-level constants (usb_reg_map.h) -/

def USB_EP_CTR_RX : Nat := 0x8000
def USB_EP_DTOG_RX : Nat := 0x4000
def USB_EP_STAT_RX : Nat := 0x3000
def USB_EP_STAT_RX_DISABLED : Nat := 0x0000
def USB_EP_STAT_RX_STALL : Nat := 0x1000
def USB_EP_STAT_RX_NAK : Nat := 0x2000
def USB_EP_STAT_RX_VALID : Nat := 0x3000
def USB_EP_SETUP : Nat := 0x0800
def USB_EP_EP_TYPE : Nat := 0x0600
def USB_EP_EP_TYPE_BULK : Nat := 0x0000
def USB_EP_EP_TYPE_CONTROL : Nat := 0x0200
def USB_EP_EP_TYPE_ISO : Nat := 0x0400
def USB_EP_EP_TYPE_INTERRUPT : Nat := 0x0600
def USB_EP_EP_KIND : Nat := 0x0100
def USB_EP_CTR_TX : Nat := 0x0080
def USB_EP_DTOG_TX : Nat := 0x0040
def USB_EP_STAT_TX : Nat := 0x0030
def USB_EP_STAT_TX_DISABLED : Nat := 0x0000
def USB_EP_STAT_TX_STALL : Nat := 0x0010
def USB_EP_STAT_TX_NAK : Nat := 0x0020
def USB_EP_STAT_TX_VALID : Nat := 0x0030
def USB_EP_EA : Nat := 0xF

/-- `__EP_CTR_NOP = USB_EP_CTR_RX | USB_EP_CTR_TX` (= 0x8080). -/
def EP_CTR_NOP : Nat := 0x8080

/-- `__EP_NONTOGGLE = USB_EP_CTR_RX | USB_EP_SETUP | USB_EP_EP_TYPE |
    USB_EP_EP_KIND | USB_EP_CTR_TX | USB_EP_EA` (= 0x8F8F). -/
def EP_NONTOGGLE : Nat := 0x8F8F

/-- Pointwise update of a function modelling an indexed memory/register bank. -/
def updFn (f : Nat → Nat) (a v : Nat) : Nat → Nat :=
  fun x => if x = a then v else f x

/-! ## Hardware endpoint-register write semantics

Modelled from the spec: the USB peripheral itself is not part of the
repository.  An endpoint register (USB_EPnR) reacts to a write of value `w`
over current content `r` as follows: the STAT_RX/STAT_TX/DTOG_RX/DTOG_TX bits
(mask 0x7070) toggle where `w` has a 1; the CTR_RX/CTR_TX bits (mask 0x8080)
are cleared by writing 0 and kept by writing 1; the remaining implemented bits
(mask 0x0F0F: SETUP, EP_TYPE, EP_KIND, EA) are plain read/write. -/

def epRegWrite (r w : Nat) : Nat :=
  (((r ^^^ w) &&& 0x7070) ||| ((r &&& w) &&& 0x8080)) ||| (w &&& 0x0F0F)

/-! Field read-back model: the individual fields of a 16-bit endpoint
register value, as plain numbers (2-bit status fields yield 0 = DISABLED,
1 = STALL, 2 = NAK, 3 = VALID). -/

def getCtrRx (r : Nat) : Nat := r / 32768 % 2
def getDtogRx (r : Nat) : Nat := r / 16384 % 2
def getStatRx (r : Nat) : Nat := r / 4096 % 4
def getSetup (r : Nat) : Nat := r / 2048 % 2
def getEpType (r : Nat) : Nat := r / 512 % 4
def getEpKind (r : Nat) : Nat := r / 256 % 2
def getCtrTx (r : Nat) : Nat := r / 128 % 2
def getDtogTx (r : Nat) : Nat := r / 64 % 2
def getStatTx (r : Nat) : Nat := r / 16 % 4
def getEa (r : Nat) : Nat := r % 16

/-! ## The status-set write protocol (usb_reg_map.h lines 218-234)

`usb_set_ep_rx_stat` computes
`epr = EP[ep]; epr &= ~(USB_EP_STAT_TX|USB_EP_DTOG_RX|USB_EP_DTOG_TX);
 epr |= __EP_CTR_NOP; epr ^= status; EP[ep] = epr` and symmetrically for TX.
`0xFFFFBF8F` is the 32-bit complement of
`USB_EP_STAT_TX ||| USB_EP_DTOG_RX ||| USB_EP_DTOG_TX` (= ~0x4070), and
`0xFFFF8FBF` the complement of
`USB_EP_STAT_RX ||| USB_EP_DTOG_RX ||| USB_EP_DTOG_TX` (= ~0x7040). -/

def usb_set_ep_rx_stat_word (epr status : Nat) : Nat :=
  ((epr &&& 0xFFFFBF8F) ||| EP_CTR_NOP) ^^^ status

def usb_set_ep_tx_stat_word (epr status : Nat) : Nat :=
  ((epr &&& 0xFFFF8FBF) ||| EP_CTR_NOP) ^^^ status

/-- `usb_set_ep_rx_stat` acting on the endpoint register bank: the register
write passes through the hardware semantics `epRegWrite`. -/
def usb_set_ep_rx_stat (EP : Nat → Nat) (ep status : Nat) : Nat → Nat :=
  updFn EP ep (epRegWrite (EP ep) (usb_set_ep_rx_stat_word (EP ep) status))

def usb_set_ep_tx_stat (EP : Nat → Nat) (ep status : Nat) : Nat → Nat :=
  updFn EP ep (epRegWrite (EP ep) (usb_set_ep_tx_stat_word (EP ep) status))

/-- `usb_set_ep_type`: `epr & ~USB_EP_EP_TYPE & __EP_NONTOGGLE | type`,
with `0xFFFFF9FF` the 32-bit complement of USB_EP_EP_TYPE. -/
def usb_set_ep_type (EP : Nat → Nat) (ep type : Nat) : Nat → Nat :=
  updFn EP ep (epRegWrite (EP ep) (((EP ep &&& 0xFFFFF9FF) &&& EP_NONTOGGLE) ||| type))

/-- `usb_set_ep_kind`: `epr & ~USB_EP_EP_KIND & __EP_NONTOGGLE | kind`,
with `0xFFFFFEFF` the 32-bit complement of USB_EP_EP_KIND. -/
def usb_set_ep_kind (EP : Nat → Nat) (ep kind : Nat) : Nat → Nat :=
  updFn EP ep (epRegWrite (EP ep) (((EP ep &&& 0xFFFFFEFF) &&& EP_NONTOGGLE) ||| kind))

/-- `usb_clear_status_out(ep)` is `usb_set_ep_kind(ep, 0)`. -/
def usb_clear_status_out (EP : Nat → Nat) (ep : Nat) : Nat → Nat :=
  usb_set_ep_kind EP ep 0

/-! ## Bit-level characterization of the status-set protocol -/

theorem xorBoolIff (a b : Bool) : ((a ^^ b) = true) ↔ ((a = true) ↔ ¬ (b = true)) := by
  cases a <;> cases b <;> simp

theorem pow16eq : (65536 : Nat) = 2 ^ 16 := by norm_num

theorem epRegWrite_lt (r w : Nat) : epRegWrite r w < 65536 := by
  rw [pow16eq]
  exact Nat.or_lt_two_pow
    (Nat.or_lt_two_pow (Nat.and_lt_two_pow _ (by norm_num)) (Nat.and_lt_two_pow _ (by norm_num)))
    (Nat.and_lt_two_pow _ (by norm_num))

theorem testBitHigh {x i : Nat} (hx : x < 65536) (h : 16 ≤ i) :
    Nat.testBit x i = false :=
  Nat.testBit_lt_two_pow
    (lt_of_lt_of_le hx (by rw [pow16eq]; exact Nat.pow_le_pow_right (by norm_num) h))

theorem rxStatBits (r s : Nat) (hr : r < 65536) (hs : s < 4) (i : Nat) :
    Nat.testBit (epRegWrite r (usb_set_ep_rx_stat_word r (s <<< 12))) i =
      (if i = 12 then Nat.testBit s 0 else if i = 13 then Nat.testBit s 1
       else Nat.testBit r i) := by
  rcases Nat.lt_or_ge i 16 with h | h
  · interval_cases i
    all_goals (
      simp only [epRegWrite, usb_set_ep_rx_stat_word, EP_CTR_NOP, Nat.testBit_or,
        Nat.testBit_and, Nat.testBit_xor, Nat.testBit_shiftLeft, reduceIte]
      rw [Bool.eq_iff_iff]
      simp [Bool.or_eq_true, Bool.and_eq_true, xorBoolIff,
        Nat.testBit_to_div_mod, decide_eq_true_eq])
    all_goals omega
  · have h12 : i ≠ 12 := by omega
    have h13 : i ≠ 13 := by omega
    rw [if_neg h12, if_neg h13, testBitHigh hr h, testBitHigh (epRegWrite_lt _ _) h]

theorem txStatBits (r s : Nat) (hr : r < 65536) (hs : s < 4) (i : Nat) :
    Nat.testBit (epRegWrite r (usb_set_ep_tx_stat_word r (s <<< 4))) i =
      (if i = 4 then Nat.testBit s 0 else if i = 5 then Nat.testBit s 1
       else Nat.testBit r i) := by
  rcases Nat.lt_or_ge i 16 with h | h
  · interval_cases i
    all_goals (
      simp only [epRegWrite, usb_set_ep_tx_stat_word, EP_CTR_NOP, Nat.testBit_or,
        Nat.testBit_and, Nat.testBit_xor, Nat.testBit_shiftLeft, reduceIte]
      rw [Bool.eq_iff_iff]
      simp [Bool.or_eq_true, Bool.and_eq_true, xorBoolIff,
        Nat.testBit_to_div_mod, decide_eq_true_eq])
    all_goals omega
  · have h4 : i ≠ 4 := by omega
    have h5 : i ≠ 5 := by omega
    rw [if_neg h4, if_neg h5, testBitHigh hr h, testBitHigh (epRegWrite_lt _ _) h]

theorem bitAsDiv {x y : Nat} {i j : Nat} (h : Nat.testBit x i = Nat.testBit y j) :
    (x / 2 ^ i % 2 = 1) ↔ (y / 2 ^ j % 2 = 1) := by
  rw [Nat.testBit_to_div_mod, Nat.testBit_to_div_mod] at h
  exact decide_eq_decide.mp h

theorem rxStatBits12 (r s : Nat) (hr : r < 65536) (hs : s < 4) :
    Nat.testBit (epRegWrite r (usb_set_ep_rx_stat_word r (s <<< 12))) 12
      = Nat.testBit s 0 := by
  have h := rxStatBits r s hr hs 12
  simpa using h

theorem rxStatBits13 (r s : Nat) (hr : r < 65536) (hs : s < 4) :
    Nat.testBit (epRegWrite r (usb_set_ep_rx_stat_word r (s <<< 12))) 13
      = Nat.testBit s 1 := by
  have h := rxStatBits r s hr hs 13
  simpa using h

theorem rxStatBitsNe (r s : Nat) (hr : r < 65536) (hs : s < 4) (i : Nat)
    (h12 : i ≠ 12) (h13 : i ≠ 13) :
    Nat.testBit (epRegWrite r (usb_set_ep_rx_stat_word r (s <<< 12))) i
      = Nat.testBit r i := by
  have h := rxStatBits r s hr hs i
  rw [if_neg h12, if_neg h13] at h
  exact h

theorem txStatBits4 (r s : Nat) (hr : r < 65536) (hs : s < 4) :
    Nat.testBit (epRegWrite r (usb_set_ep_tx_stat_word r (s <<< 4))) 4
      = Nat.testBit s 0 := by
  have h := txStatBits r s hr hs 4
  simpa using h

theorem txStatBits5 (r s : Nat) (hr : r < 65536) (hs : s < 4) :
    Nat.testBit (epRegWrite r (usb_set_ep_tx_stat_word r (s <<< 4))) 5
      = Nat.testBit s 1 := by
  have h := txStatBits r s hr hs 5
  simpa using h

theorem txStatBitsNe (r s : Nat) (hr : r < 65536) (hs : s < 4) (i : Nat)
    (h4 : i ≠ 4) (h5 : i ≠ 5) :
    Nat.testBit (epRegWrite r (usb_set_ep_tx_stat_word r (s <<< 4))) i
      = Nat.testBit r i := by
  have h := txStatBits r s hr hs i
  rw [if_neg h4, if_neg h5] at h
  exact h

/-- Field-level effect of the RX status-set protocol on one register value:
the RX status field becomes exactly `s`; every other field reads back
unchanged. -/
theorem rxStatFields (r s : Nat) (hr : r < 65536) (hs : s < 4) :
    getStatRx (epRegWrite r (usb_set_ep_rx_stat_word r (s <<< 12))) = s ∧
    getStatTx (epRegWrite r (usb_set_ep_rx_stat_word r (s <<< 12))) = getStatTx r ∧
    getDtogRx (epRegWrite r (usb_set_ep_rx_stat_word r (s <<< 12))) = getDtogRx r ∧
    getDtogTx (epRegWrite r (usb_set_ep_rx_stat_word r (s <<< 12))) = getDtogTx r ∧
    getCtrRx (epRegWrite r (usb_set_ep_rx_stat_word r (s <<< 12))) = getCtrRx r ∧
    getCtrTx (epRegWrite r (usb_set_ep_rx_stat_word r (s <<< 12))) = getCtrTx r ∧
    getSetup (epRegWrite r (usb_set_ep_rx_stat_word r (s <<< 12))) = getSetup r ∧
    getEpType (epRegWrite r (usb_set_ep_rx_stat_word r (s <<< 12))) = getEpType r ∧
    getEpKind (epRegWrite r (usb_set_ep_rx_stat_word r (s <<< 12))) = getEpKind r ∧
    getEa (epRegWrite r (usb_set_ep_rx_stat_word r (s <<< 12))) = getEa r := by
  refine ⟨?_, ?_, ?_, ?_, ?_, ?_, ?_, ?_, ?_, ?_⟩
  · have b12 := bitAsDiv (rxStatBits12 r s hr hs)
    have b13 := bitAsDiv (rxStatBits13 r s hr hs)
    norm_num at b12 b13
    unfold getStatRx
    omega
  · have b4 := bitAsDiv (rxStatBitsNe r s hr hs 4 (by norm_num) (by norm_num))
    have b5 := bitAsDiv (rxStatBitsNe r s hr hs 5 (by norm_num) (by norm_num))
    norm_num at b4 b5
    unfold getStatTx
    omega
  · have b14 := bitAsDiv (rxStatBitsNe r s hr hs 14 (by norm_num) (by norm_num))
    norm_num at b14
    unfold getDtogRx
    omega
  · have b6 := bitAsDiv (rxStatBitsNe r s hr hs 6 (by norm_num) (by norm_num))
    norm_num at b6
    unfold getDtogTx
    omega
  · have b15 := bitAsDiv (rxStatBitsNe r s hr hs 15 (by norm_num) (by norm_num))
    norm_num at b15
    unfold getCtrRx
    omega
  · have b7 := bitAsDiv (rxStatBitsNe r s hr hs 7 (by norm_num) (by norm_num))
    norm_num at b7
    unfold getCtrTx
    omega
  · have b11 := bitAsDiv (rxStatBitsNe r s hr hs 11 (by norm_num) (by norm_num))
    norm_num at b11
    unfold getSetup
    omega
  · have b9 := bitAsDiv (rxStatBitsNe r s hr hs 9 (by norm_num) (by norm_num))
    have b10 := bitAsDiv (rxStatBitsNe r s hr hs 10 (by norm_num) (by norm_num))
    norm_num at b9 b10
    unfold getEpType
    omega
  · have b8 := bitAsDiv (rxStatBitsNe r s hr hs 8 (by norm_num) (by norm_num))
    norm_num at b8
    unfold getEpKind
    omega
  · have b0 := bitAsDiv (rxStatBitsNe r s hr hs 0 (by norm_num) (by norm_num))
    have b1 := bitAsDiv (rxStatBitsNe r s hr hs 1 (by norm_num) (by norm_num))
    have b2 := bitAsDiv (rxStatBitsNe r s hr hs 2 (by norm_num) (by norm_num))
    have b3 := bitAsDiv (rxStatBitsNe r s hr hs 3 (by norm_num) (by norm_num))
    norm_num at b0 b1 b2 b3
    unfold getEa
    omega

/-- Field-level effect of the TX status-set protocol, symmetric to
`rxStatFields`. -/
theorem txStatFields (r s : Nat) (hr : r < 65536) (hs : s < 4) :
    getStatTx (epRegWrite r (usb_set_ep_tx_stat_word r (s <<< 4))) = s ∧
    getStatRx (epRegWrite r (usb_set_ep_tx_stat_word r (s <<< 4))) = getStatRx r ∧
    getDtogRx (epRegWrite r (usb_set_ep_tx_stat_word r (s <<< 4))) = getDtogRx r ∧
    getDtogTx (epRegWrite r (usb_set_ep_tx_stat_word r (s <<< 4))) = getDtogTx r ∧
    getCtrRx (epRegWrite r (usb_set_ep_tx_stat_word r (s <<< 4))) = getCtrRx r ∧
    getCtrTx (epRegWrite r (usb_set_ep_tx_stat_word r (s <<< 4))) = getCtrTx r ∧
    getSetup (epRegWrite r (usb_set_ep_tx_stat_word r (s <<< 4))) = getSetup r ∧
    getEpType (epRegWrite r (usb_set_ep_tx_stat_word r (s <<< 4))) = getEpType r ∧
    getEpKind (epRegWrite r (usb_set_ep_tx_stat_word r (s <<< 4))) = getEpKind r ∧
    getEa (epRegWrite r (usb_set_ep_tx_stat_word r (s <<< 4))) = getEa r := by
  refine ⟨?_, ?_, ?_, ?_, ?_, ?_, ?_, ?_, ?_, ?_⟩
  · have b4 := bitAsDiv (txStatBits4 r s hr hs)
    have b5 := bitAsDiv (txStatBits5 r s hr hs)
    norm_num at b4 b5
    unfold getStatTx
    omega
  · have b12 := bitAsDiv (txStatBitsNe r s hr hs 12 (by norm_num) (by norm_num))
    have b13 := bitAsDiv (txStatBitsNe r s hr hs 13 (by norm_num) (by norm_num))
    norm_num at b12 b13
    unfold getStatRx
    omega
  · have b14 := bitAsDiv (txStatBitsNe r s hr hs 14 (by norm_num) (by norm_num))
    norm_num at b14
    unfold getDtogRx
    omega
  · have b6 := bitAsDiv (txStatBitsNe r s hr hs 6 (by norm_num) (by norm_num))
    norm_num at b6
    unfold getDtogTx
    omega
  · have b15 := bitAsDiv (txStatBitsNe r s hr hs 15 (by norm_num) (by norm_num))
    norm_num at b15
    unfold getCtrRx
    omega
  · have b7 := bitAsDiv (txStatBitsNe r s hr hs 7 (by norm_num) (by norm_num))
    norm_num at b7
    unfold getCtrTx
    omega
  · have b11 := bitAsDiv (txStatBitsNe r s hr hs 11 (by norm_num) (by norm_num))
    norm_num at b11
    unfold getSetup
    omega
  · have b9 := bitAsDiv (txStatBitsNe r s hr hs 9 (by norm_num) (by norm_num))
    have b10 := bitAsDiv (txStatBitsNe r s hr hs 10 (by norm_num) (by norm_num))
    norm_num at b9 b10
    unfold getEpType
    omega
  · have b8 := bitAsDiv (txStatBitsNe r s hr hs 8 (by norm_num) (by norm_num))
    norm_num at b8
    unfold getEpKind
    omega
  · have b0 := bitAsDiv (txStatBitsNe r s hr hs 0 (by norm_num) (by norm_num))
    have b1 := bitAsDiv (txStatBitsNe r s hr hs 1 (by norm_num) (by norm_num))
    have b2 := bitAsDiv (txStatBitsNe r s hr hs 2 (by norm_num) (by norm_num))
    have b3 := bitAsDiv (txStatBitsNe r s hr hs 3 (by norm_num) (by norm_num))
    norm_num at b0 b1 b2 b3
    unfold getEa
    omega

/-- C1: for every endpoint register bank, endpoint, and target 2-bit status,
`usb_set_ep_rx_stat` (resp. `usb_set_ep_tx_stat`) followed by a read under the
hardware's write semantics yields exactly the requested status in the target
direction, while the other direction's status, both data-toggle bits, both CTR
flags, the endpoint type, kind, setup flag, and address fields are
unchanged. -/
theorem ep_stat_set_exact_and_preserving (EP : Nat → Nat) (ep s : Nat)
    (hr : EP ep < 65536) (hs : s < 4) :
    (getStatRx (usb_set_ep_rx_stat EP ep (s <<< 12) ep) = s ∧
     getStatTx (usb_set_ep_rx_stat EP ep (s <<< 12) ep) = getStatTx (EP ep) ∧
     getDtogRx (usb_set_ep_rx_stat EP ep (s <<< 12) ep) = getDtogRx (EP ep) ∧
     getDtogTx (usb_set_ep_rx_stat EP ep (s <<< 12) ep) = getDtogTx (EP ep) ∧
     getCtrRx (usb_set_ep_rx_stat EP ep (s <<< 12) ep) = getCtrRx (EP ep) ∧
     getCtrTx (usb_set_ep_rx_stat EP ep (s <<< 12) ep) = getCtrTx (EP ep) ∧
     getSetup (usb_set_ep_rx_stat EP ep (s <<< 12) ep) = getSetup (EP ep) ∧
     getEpType (usb_set_ep_rx_stat EP ep (s <<< 12) ep) = getEpType (EP ep) ∧
     getEpKind (usb_set_ep_rx_stat EP ep (s <<< 12) ep) = getEpKind (EP ep) ∧
     getEa (usb_set_ep_rx_stat EP ep (s <<< 12) ep) = getEa (EP ep)) ∧
    (getStatTx (usb_set_ep_tx_stat EP ep (s <<< 4) ep) = s ∧
     getStatRx (usb_set_ep_tx_stat EP ep (s <<< 4) ep) = getStatRx (EP ep) ∧
     getDtogRx (usb_set_ep_tx_stat EP ep (s <<< 4) ep) = getDtogRx (EP ep) ∧
     getDtogTx (usb_set_ep_tx_stat EP ep (s <<< 4) ep) = getDtogTx (EP ep) ∧
     getCtrRx (usb_set_ep_tx_stat EP ep (s <<< 4) ep) = getCtrRx (EP ep) ∧
     getCtrTx (usb_set_ep_tx_stat EP ep (s <<< 4) ep) = getCtrTx (EP ep) ∧
     getSetup (usb_set_ep_tx_stat EP ep (s <<< 4) ep) = getSetup (EP ep) ∧
     getEpType (usb_set_ep_tx_stat EP ep (s <<< 4) ep) = getEpType (EP ep) ∧
     getEpKind (usb_set_ep_tx_stat EP ep (s <<< 4) ep) = getEpKind (EP ep) ∧
     getEa (usb_set_ep_tx_stat EP ep (s <<< 4) ep) = getEa (EP ep)) := by
  constructor
  · have h : usb_set_ep_rx_stat EP ep (s <<< 12) ep
        = epRegWrite (EP ep) (usb_set_ep_rx_stat_word (EP ep) (s <<< 12)) := by
      simp [usb_set_ep_rx_stat, updFn]
    rw [h]
    exact rxStatFields (EP ep) s hr hs
  · have h : usb_set_ep_tx_stat EP ep (s <<< 4) ep
        = epRegWrite (EP ep) (usb_set_ep_tx_stat_word (EP ep) (s <<< 4)) := by
      simp [usb_set_ep_tx_stat, updFn]
    rw [h]
    exact txStatFields (EP ep) s hr hs

/-- Witness for C1 at a concrete register value and status. -/
theorem ep_stat_set_exact_and_preserving_w :
    (fun _ : Nat => (0x4A5B : Nat)) 2 < 65536 ∧ (1 : Nat) < 4 ∧
    getStatRx (usb_set_ep_rx_stat (fun _ => 0x4A5B) 2 (1 <<< 12) 2) = 1 := by
  refine ⟨by norm_num, by norm_num, ?_⟩
  exact (ep_stat_set_exact_and_preserving (fun _ => 0x4A5B) 2 1 (by norm_num) (by norm_num)).1.1

/-! ## BDT pointer layout and accessors (usb_reg_map.h lines 275-447)

The BDT lives in packet memory; the CPU-visible location of halfword
`offset` is `USB_PMA_BASE + 2 * offset`.  `mem` models the CPU-visible
word memory, `btable` the value of the BTABLE register. -/

def USB_PMA_BASE : Nat := 0x40006000

def usb_pma_ptr (offset : Nat) : Nat := USB_PMA_BASE + 2 * offset

def usb_btable_ptr (btable offset : Nat) : Nat := usb_pma_ptr (btable + offset)

def usb_ep_tx_addr_ptr (btable ep : Nat) : Nat := usb_btable_ptr btable (ep * 8)

def usb_ep_rx_addr_ptr (btable ep : Nat) : Nat := usb_btable_ptr btable (ep * 8 + 4)

def usb_ep_tx_count_ptr (btable ep : Nat) : Nat := usb_btable_ptr btable (ep * 8 + 2)

def usb_ep_rx_count_ptr (btable ep : Nat) : Nat := usb_btable_ptr btable (ep * 8 + 6)

/-- `(uint16_t) *usb_ep_tx_addr_ptr(ep)`. -/
def usb_get_ep_tx_addr (mem : Nat → Nat) (btable ep : Nat) : Nat :=
  mem (usb_ep_tx_addr_ptr btable ep) % 65536

/-- `*tx_addr = addr & ~0x1` — `0xFFFFFFFE` is the 32-bit complement of 1. -/
def usb_set_ep_tx_addr (mem : Nat → Nat) (btable ep addr : Nat) : Nat → Nat :=
  updFn mem (usb_ep_tx_addr_ptr btable ep) (addr &&& 0xFFFFFFFE)

def usb_get_ep_rx_addr (mem : Nat → Nat) (btable ep : Nat) : Nat :=
  mem (usb_ep_rx_addr_ptr btable ep) % 65536

def usb_set_ep_rx_addr (mem : Nat → Nat) (btable ep addr : Nat) : Nat → Nat :=
  updFn mem (usb_ep_rx_addr_ptr btable ep) (addr &&& 0xFFFFFFFE)

def usb_get_ep_tx_count (mem : Nat → Nat) (btable ep : Nat) : Nat :=
  mem (usb_ep_tx_count_ptr btable ep) % 65536

def usb_set_ep_tx_count (mem : Nat → Nat) (btable ep count : Nat) : Nat → Nat :=
  updFn mem (usb_ep_tx_count_ptr btable ep) count

/-- `(uint16_t) *usb_ep_rx_count_ptr(ep) & 0x3FF`. -/
def usb_get_ep_rx_count (mem : Nat → Nat) (btable ep : Nat) : Nat :=
  mem (usb_ep_rx_count_ptr btable ep) % 65536 &&& 0x3FF

/-- Modelled from the spec: `usb_set_ep_rx_count` is declared in
usb_reg_map.h but defined in usb.c, which is not under src/.  Per the spec
it records `count` as the endpoint's expected RX count in its BDT slot; the
hardware later replaces the low 10 bits by the actually received count,
which `usb_get_ep_rx_count` reads back under the 0x3FF mask. -/
def usb_set_ep_rx_count (mem : Nat → Nat) (btable ep count : Nat) : Nat → Nat :=
  updFn mem (usb_ep_rx_count_ptr btable ep) count

theorem landEven (a : Nat) (ha : a < 65536) :
    a &&& 0xFFFFFFFE = (a >>> 1) <<< 1 := by
  have hR : (a >>> 1) <<< 1 < 65536 := by
    rw [Nat.shiftLeft_eq, Nat.shiftRight_eq_div_pow]
    norm_num
    omega
  apply Nat.eq_of_testBit_eq
  intro i
  rcases Nat.lt_or_ge i 16 with h | h
  · interval_cases i
    all_goals (
      simp only [Nat.testBit_and, Nat.testBit_shiftLeft, Nat.testBit_shiftRight]
      rw [Bool.eq_iff_iff]
      simp [Bool.and_eq_true, Nat.testBit_to_div_mod, decide_eq_true_eq])
  · rw [testBitHigh (lt_of_le_of_lt Nat.and_le_left ha) h, testBitHigh hR h]

theorem landEvenMod (a : Nat) (ha : a < 65536) :
    (a &&& 0xFFFFFFFE) % 65536 = 2 * (a / 2) := by
  rw [landEven a ha, Nat.shiftLeft_eq, Nat.shiftRight_eq_div_pow]
  norm_num
  omega

/-- C8: the BDT accessors address the four fields at halfword offsets
`ep*8 + 0` (tx_addr), `ep*8 + 2` (tx_count), `ep*8 + 4` (rx_addr),
`ep*8 + 6` (rx_count) from the BTABLE base, each PMA location being
`base + 2*offset`; the address setters store the supplied address with its
low bit forced to zero, so a subsequent get returns the address with bit 0
cleared (`2 * (addr / 2)`), never failing on an odd address. -/
theorem bdt_layout_and_addr_alignment :
    (∀ btable ep : Nat,
      usb_ep_tx_addr_ptr btable ep = USB_PMA_BASE + 2 * (btable + (ep * 8)) ∧
      usb_ep_tx_count_ptr btable ep = USB_PMA_BASE + 2 * (btable + (ep * 8 + 2)) ∧
      usb_ep_rx_addr_ptr btable ep = USB_PMA_BASE + 2 * (btable + (ep * 8 + 4)) ∧
      usb_ep_rx_count_ptr btable ep = USB_PMA_BASE + 2 * (btable + (ep * 8 + 6))) ∧
    (∀ (mem : Nat → Nat) (btable ep addr : Nat), addr < 65536 →
      usb_get_ep_tx_addr (usb_set_ep_tx_addr mem btable ep addr) btable ep
        = 2 * (addr / 2) ∧
      usb_get_ep_rx_addr (usb_set_ep_rx_addr mem btable ep addr) btable ep
        = 2 * (addr / 2)) := by
  constructor
  · intro btable ep
    exact ⟨rfl, rfl, rfl, rfl⟩
  · intro mem btable ep addr ha
    constructor
    · show (updFn mem (usb_ep_tx_addr_ptr btable ep) (addr &&& 0xFFFFFFFE))
        (usb_ep_tx_addr_ptr btable ep) % 65536 = 2 * (addr / 2)
      rw [updFn, if_pos rfl]
      exact landEvenMod addr ha
    · show (updFn mem (usb_ep_rx_addr_ptr btable ep) (addr &&& 0xFFFFFFFE))
        (usb_ep_rx_addr_ptr btable ep) % 65536 = 2 * (addr / 2)
      rw [updFn, if_pos rfl]
      exact landEvenMod addr ha

/-- Witness for C8: setting an odd TX address (0x111) on endpoint 1 reads
back as 0x110. -/
theorem bdt_layout_and_addr_alignment_w :
    (0x111 : Nat) < 65536 ∧
    usb_get_ep_tx_addr (usb_set_ep_tx_addr (fun _ => 0) 0 1 0x111) 0 1 = 0x110 := by
  refine ⟨by norm_num, ?_⟩
  have h := (bdt_layout_and_addr_alignment.2 (fun _ => 0) 0 1 0x111 (by norm_num)).1
  rw [h]

/-! ## VCOM configuration and CDC-ACM request constants (usb_cdcacm.c) -/

def VCOM_CTRL_RX_ADDR : Nat := 0x40
def VCOM_CTRL_TX_ADDR : Nat := 0x80
def VCOM_TX_ENDP : Nat := 1
def VCOM_TX_ADDR : Nat := 0xC0
def VCOM_TX_EPSIZE : Nat := 0x40
def VCOM_NOTIFICATION_ENDP : Nat := 2
def VCOM_NOTIFICATION_ADDR : Nat := 0x100
def VCOM_RX_ENDP : Nat := 3
def VCOM_RX_ADDR : Nat := 0x110
def VCOM_RX_EPSIZE : Nat := 0x40
def VCOM_RX_BUFLEN : Nat := VCOM_RX_EPSIZE * 3
def SET_LINE_CODING : Nat := 0x20
def GET_LINE_CODING : Nat := 0x21
def SET_COMM_FEATURE : Nat := 0x02
def SET_CONTROL_LINE_STATE : Nat := 0x22
def CONTROL_LINE_DTR : Nat := 0x01
def CONTROL_LINE_RTS : Nat := 0x02
def USB_EP0 : Nat := 0
def MAX_PACKET_SIZE : Nat := 0x40
def BTABLE_ADDRESS : Nat := 0x00

inductive RESET_STATE where
  | DTR_UNSET
  | DTR_HIGH
  | DTR_NEGEDGE
  | DTR_LOW
deriving DecidableEq, Repr

inductive RESULT where
  | USB_SUCCESS
  | USB_UNSUPPORT
deriving DecidableEq, Repr

/-- Mutable state of the CDC-ACM core.

`EP` is the endpoint register bank (USB_BASE->EP, one 16-bit value per
endpoint); `bdt` the CPU-visible word memory holding the buffer descriptor
table (indexed by address, BTABLE fixed at `BTABLE_ADDRESS = 0`); `pma` the
packet-memory data bytes (indexed by packet-memory byte offset — the BDT
occupies packet bytes 0..0x3F while the CDC buffers start at 0x40, so the
two regions are disjoint and modelled as separate maps); `vcomBufferRx` the
192-byte driver ring buffer; the scalar fields are the module-level
variables of usb_cdcacm.c lines 302-309 plus the static local `rx_offset`
of `usb_cdcacm_rx`. -/
structure CdcState where
  EP : Nat → Nat
  bdt : Nat → Nat
  pma : Nat → Nat
  vcomBufferRx : Nat → Nat
  countTx : Nat
  newBytes : Nat
  rx_offset : Nat
  recvBufIn : Nat
  recvBufOut : Nat
  maxNewBytes : Nat
  line_dtr_rts : Nat
  reset_state : RESET_STATE

/-- Modelled from the spec: `usb_copy_to_pma(buf, len, pma_offset)` is
defined in usb.c, which is not under src/.  Per the spec it moves `len`
bytes from a linear buffer into packet memory at byte offset `pma_offset`
without touching memory past `len` (the 16-bit lane packing is
transparent at byte granularity). -/
def usb_copy_to_pma (pma : Nat → Nat) (buf : Nat → Nat) (len pma_offset : Nat) :
    Nat → Nat :=
  fun a => if pma_offset ≤ a ∧ a < pma_offset + len then buf (a - pma_offset) else pma a

/-- Modelled from the spec: `usb_copy_from_pma(dst, len, pma_offset)` is
defined in usb.c, which is not under src/.  Per the spec it moves `len`
bytes from packet memory at byte offset `pma_offset` into the destination
buffer, leaving the rest of the destination untouched. -/
def usb_copy_from_pma (dst : Nat → Nat) (pma : Nat → Nat) (len pma_offset : Nat) :
    Nat → Nat :=
  fun j => if j < len then pma (pma_offset + j) else dst j

/-- `usb_cdcacm_tx` (usb_cdcacm.c lines 387-407): returns the number of
bytes accepted together with the successor state.  The caller's buffer is
modelled as `buf : Nat → Nat`. -/
def usb_cdcacm_tx (s : CdcState) (buf : Nat → Nat) (len : Nat) : Nat × CdcState :=
  if s.countTx ≠ 0 then (0, s)
  else
    let len1 := if len > VCOM_TX_EPSIZE / 2 then VCOM_TX_EPSIZE / 2 else len
    if len1 ≠ 0 then
      let s1 := { s with pma := usb_copy_to_pma s.pma buf len1 VCOM_TX_ADDR }
      let s2 := { s1 with
        bdt := usb_set_ep_tx_count s1.bdt BTABLE_ADDRESS VCOM_TX_ENDP len1 }
      let s3 := { s2 with countTx := s2.countTx + len1 }
      let s4 := { s3 with
        EP := usb_set_ep_tx_stat s3.EP VCOM_TX_ENDP USB_EP_STAT_TX_VALID }
      (len1, s4)
    else (len1, s)

/-- `usb_cdcacm_rx` (usb_cdcacm.c lines 424-448): returns the list of bytes
copied into the caller's buffer, the returned count, and the successor
state. -/
def usb_cdcacm_rx (s : CdcState) (len : Nat) : List Nat × Nat × CdcState :=
  let len1 := if len > s.newBytes then s.newBytes else len
  let out := (List.range len1).map fun i => s.vcomBufferRx (i + s.rx_offset)
  let s1 := { s with newBytes := s.newBytes - len1, rx_offset := s.rx_offset + len1 }
  if s1.newBytes = 0 then
    let s2 := { s1 with
      bdt := usb_set_ep_rx_count s1.bdt BTABLE_ADDRESS VCOM_RX_ENDP VCOM_RX_EPSIZE }
    let s3 := { s2 with
      EP := usb_set_ep_rx_stat s2.EP VCOM_RX_ENDP USB_EP_STAT_RX_VALID }
    (out, len1, { s3 with rx_offset := 0 })
  else (out, len1, s1)

/-- `vcomDataTxCb` (usb_cdcacm.c lines 464-468). -/
def vcomDataTxCb (s : CdcState) : CdcState :=
  { s with countTx := 0 }

/-- `vcomDataRxCb` (usb_cdcacm.c lines 470-477). -/
def vcomDataRxCb (s : CdcState) : CdcState :=
  let nb := usb_get_ep_rx_count s.bdt BTABLE_ADDRESS VCOM_RX_ENDP
  let s1 := { s with newBytes := nb }
  let s2 := { s1 with EP := usb_set_ep_rx_stat s1.EP VCOM_RX_ENDP USB_EP_STAT_RX_NAK }
  { s2 with vcomBufferRx := usb_copy_from_pma s2.vcomBufferRx s2.pma nb VCOM_RX_ADDR }

/-- Environment step before `vcomDataRxCb` runs: the hardware has received a
packet `data`, written it to the RX PMA buffer, and recorded the received
byte count in the endpoint's BDT rx_count slot. -/
def rxPacketArrives (s : CdcState) (data : List Nat) : CdcState :=
  { s with
    bdt := usb_set_ep_rx_count s.bdt BTABLE_ADDRESS VCOM_RX_ENDP data.length
    pma := usb_copy_to_pma s.pma (fun i => data.getD i 0) data.length VCOM_RX_ADDR }

/-- `usbNoDataSetup` (usb_cdcacm.c lines 595-650), for requests whose
`Type_Recipient` is `CLASS_REQUEST | INTERFACE_RECIPIENT`; `bb0` is the low
byte of the request's wValue (`pInformation->USBwValues.bw.bb0`). -/
def usbNoDataSetup (s : CdcState) (request bb0 : Nat) : RESULT × CdcState :=
  if request = SET_COMM_FEATURE then (RESULT.USB_SUCCESS, s)
  else if request = SET_CONTROL_LINE_STATE then
    let new_signal := bb0 &&& (CONTROL_LINE_DTR ||| CONTROL_LINE_RTS)
    let rs :=
      match s.reset_state with
      | RESET_STATE.DTR_UNSET =>
        if new_signal &&& CONTROL_LINE_DTR = 0 then RESET_STATE.DTR_LOW
        else RESET_STATE.DTR_HIGH
      | RESET_STATE.DTR_HIGH =>
        if new_signal &&& CONTROL_LINE_DTR = 0 then RESET_STATE.DTR_NEGEDGE
        else RESET_STATE.DTR_HIGH
      | RESET_STATE.DTR_NEGEDGE =>
        if new_signal &&& CONTROL_LINE_DTR = 0 then RESET_STATE.DTR_LOW
        else RESET_STATE.DTR_HIGH
      | RESET_STATE.DTR_LOW =>
        if new_signal &&& CONTROL_LINE_DTR = 0 then RESET_STATE.DTR_LOW
        else RESET_STATE.DTR_HIGH
    (RESULT.USB_SUCCESS,
     { s with line_dtr_rts := new_signal &&& 0x03, reset_state := rs })
  else (RESULT.USB_UNSUPPORT, s)

/-- `usbReset` (usb_cdcacm.c lines 516-563).  The control-transfer-stack
fields it also touches (`pInformation`, `USBLIB->state`, the device
address) belong to the external USB library and are outside this model;
`USB_BASE->BTABLE` is set to `BTABLE_ADDRESS = 0`, which the `bdt`
accessors here take as a fixed parameter. -/
def usbReset (s : CdcState) : CdcState :=
  let ep := usb_set_ep_type s.EP USB_EP0 USB_EP_EP_TYPE_CONTROL
  let ep := usb_set_ep_tx_stat ep USB_EP0 USB_EP_STAT_TX_STALL
  let bdt := usb_set_ep_rx_addr s.bdt BTABLE_ADDRESS USB_EP0 VCOM_CTRL_RX_ADDR
  let bdt := usb_set_ep_tx_addr bdt BTABLE_ADDRESS USB_EP0 VCOM_CTRL_TX_ADDR
  let ep := usb_clear_status_out ep USB_EP0
  let bdt := usb_set_ep_rx_count bdt BTABLE_ADDRESS USB_EP0 MAX_PACKET_SIZE
  let ep := usb_set_ep_rx_stat ep USB_EP0 USB_EP_STAT_RX_VALID
  let ep := usb_set_ep_type ep VCOM_NOTIFICATION_ENDP USB_EP_EP_TYPE_INTERRUPT
  let bdt := usb_set_ep_tx_addr bdt BTABLE_ADDRESS VCOM_NOTIFICATION_ENDP
    VCOM_NOTIFICATION_ADDR
  let ep := usb_set_ep_tx_stat ep VCOM_NOTIFICATION_ENDP USB_EP_STAT_TX_NAK
  let ep := usb_set_ep_rx_stat ep VCOM_NOTIFICATION_ENDP USB_EP_STAT_RX_DISABLED
  let ep := usb_set_ep_type ep VCOM_RX_ENDP USB_EP_EP_TYPE_BULK
  let bdt := usb_set_ep_rx_addr bdt BTABLE_ADDRESS VCOM_RX_ENDP 0x110
  let bdt := usb_set_ep_rx_count bdt BTABLE_ADDRESS VCOM_RX_ENDP 64
  let ep := usb_set_ep_rx_stat ep VCOM_RX_ENDP USB_EP_STAT_RX_VALID
  let ep := usb_set_ep_type ep VCOM_TX_ENDP USB_EP_EP_TYPE_BULK
  let bdt := usb_set_ep_tx_addr bdt BTABLE_ADDRESS VCOM_TX_ENDP VCOM_TX_ADDR
  let ep := usb_set_ep_tx_stat ep VCOM_TX_ENDP USB_EP_STAT_TX_NAK
  let ep := usb_set_ep_rx_stat ep VCOM_TX_ENDP USB_EP_STAT_RX_DISABLED
  { s with
    EP := ep
    bdt := bdt
    recvBufIn := 0
    recvBufOut := 0
    maxNewBytes := VCOM_RX_EPSIZE
    countTx := 0 }

/-- State at first device initialization: the C initializers of the
module-level variables (usb_cdcacm.c lines 302-309), the static local
`rx_offset = 0`, and zeroed registers and memories. -/
def initState : CdcState :=
  { EP := fun _ => 0
    bdt := fun _ => 0
    pma := fun _ => 0
    vcomBufferRx := fun _ => 0
    countTx := 0
    newBytes := 0
    rx_offset := 0
    recvBufIn := 0
    recvBufOut := 0
    maxNewBytes := VCOM_RX_BUFLEN
    line_dtr_rts := 0
    reset_state := RESET_STATE.DTR_UNSET }

/-! ## Bus reset (claim C7) -/

/-- A pre-reset state with nonzero FIFO/line state, to exhibit what
`usbReset` does not touch. -/
def c7state : CdcState :=
  { initState with
    newBytes := 5
    rx_offset := 7
    line_dtr_rts := 3
    reset_state := RESET_STATE.DTR_HIGH }

/-- Counterexample to C7 as stated: after `usbReset` from `c7state`, the RX
available count, read cursor, ring-buffer bookkeeping field `maxNewBytes`,
line-state bits and reset-detector state do not all equal their
first-initialization values. -/
theorem usbReset_not_full_reinit :
    ¬ ((usbReset c7state).newBytes = initState.newBytes ∧
       (usbReset c7state).rx_offset = initState.rx_offset ∧
       (usbReset c7state).maxNewBytes = initState.maxNewBytes ∧
       (usbReset c7state).line_dtr_rts = initState.line_dtr_rts ∧
       (usbReset c7state).reset_state = initState.reset_state) := by
  intro h
  exact absurd h.1 (by decide)

/-- C7 (amended): `usbReset` resets `countTx`, `recvBufIn`, `recvBufOut`
to 0 and sets `maxNewBytes := VCOM_RX_EPSIZE` (64 — differing from the
first-initialization value `VCOM_RX_BUFLEN` = 192); it leaves `newBytes`,
the read cursor `rx_offset`, the line-state bits, the reset-detector state,
the PMA contents and the ring buffer unchanged. -/
theorem usbReset_partial_reinit (s : CdcState) :
    (usbReset s).countTx = 0 ∧
    (usbReset s).recvBufIn = 0 ∧
    (usbReset s).recvBufOut = 0 ∧
    (usbReset s).maxNewBytes = VCOM_RX_EPSIZE ∧
    initState.maxNewBytes = VCOM_RX_BUFLEN ∧
    (usbReset s).newBytes = s.newBytes ∧
    (usbReset s).rx_offset = s.rx_offset ∧
    (usbReset s).line_dtr_rts = s.line_dtr_rts ∧
    (usbReset s).reset_state = s.reset_state ∧
    (usbReset s).pma = s.pma ∧
    (usbReset s).vcomBufferRx = s.vcomBufferRx :=
  ⟨rfl, rfl, rfl, rfl, rfl, rfl, rfl, rfl, rfl, rfl, rfl⟩

/-! ## Line state monitor (claim C6) -/

/-- Successor state of one `SET_CONTROL_LINE_STATE` request. -/
def sclsStep (s : CdcState) (bb0 : Nat) : CdcState :=
  (usbNoDataSetup s SET_CONTROL_LINE_STATE bb0).2

/-- C6: a `SET_CONTROL_LINE_STATE` request updates the stored DTR/RTS bits
unconditionally from the request's value field, then moves the
reset-detector state as a pure function of the new DTR bit: to `DTR_HIGH`
whenever DTR = 1; on DTR = 0, from `DTR_HIGH` to `DTR_NEGEDGE` and from
`DTR_UNSET`, `DTR_NEGEDGE`, or `DTR_LOW` to `DTR_LOW`.  Starting at
`DTR_UNSET`, the input bits 1, 0, 0, 1 visit `DTR_HIGH`, `DTR_NEGEDGE`,
`DTR_LOW`, `DTR_HIGH`. -/
theorem set_control_line_state_dtr_machine (s : CdcState) (bb0 : Nat) :
    (usbNoDataSetup s SET_CONTROL_LINE_STATE bb0).1 = RESULT.USB_SUCCESS ∧
    (usbNoDataSetup s SET_CONTROL_LINE_STATE bb0).2.line_dtr_rts = bb0 &&& 3 ∧
    (bb0 &&& CONTROL_LINE_DTR ≠ 0 →
      (usbNoDataSetup s SET_CONTROL_LINE_STATE bb0).2.reset_state
        = RESET_STATE.DTR_HIGH) ∧
    (bb0 &&& CONTROL_LINE_DTR = 0 →
      (usbNoDataSetup s SET_CONTROL_LINE_STATE bb0).2.reset_state
        = (match s.reset_state with
           | RESET_STATE.DTR_HIGH => RESET_STATE.DTR_NEGEDGE
           | _ => RESET_STATE.DTR_LOW)) ∧
    ((sclsStep initState 1).reset_state = RESET_STATE.DTR_HIGH ∧
     (sclsStep (sclsStep initState 1) 0).reset_state = RESET_STATE.DTR_NEGEDGE ∧
     (sclsStep (sclsStep (sclsStep initState 1) 0) 0).reset_state
       = RESET_STATE.DTR_LOW ∧
     (sclsStep (sclsStep (sclsStep (sclsStep initState 1) 0) 0) 1).reset_state
       = RESET_STATE.DTR_HIGH) := by
  have hand1 : (bb0 &&& (CONTROL_LINE_DTR ||| CONTROL_LINE_RTS)) &&& CONTROL_LINE_DTR
      = bb0 &&& CONTROL_LINE_DTR := by
    rw [Nat.and_assoc,
      show ((CONTROL_LINE_DTR ||| CONTROL_LINE_RTS) &&& CONTROL_LINE_DTR : Nat)
          = CONTROL_LINE_DTR from by decide]
  have hand3 : (bb0 &&& (CONTROL_LINE_DTR ||| CONTROL_LINE_RTS)) &&& 0x03
      = bb0 &&& 3 := by
    rw [Nat.and_assoc,
      show ((CONTROL_LINE_DTR ||| CONTROL_LINE_RTS) &&& 0x03 : Nat) = 3 from by decide]
  refine ⟨rfl, ?_, ?_, ?_, by decide, by decide, by decide, by decide⟩
  · show (bb0 &&& (CONTROL_LINE_DTR ||| CONTROL_LINE_RTS)) &&& 0x03 = bb0 &&& 3
    exact hand3
  · intro h
    obtain ⟨EP, bdt, pma, vb, ct, nb, ro, rbi, rbo, mnb, ldr, rs⟩ := s
    cases rs <;>
      · show (if (bb0 &&& (CONTROL_LINE_DTR ||| CONTROL_LINE_RTS)) &&& CONTROL_LINE_DTR
              = 0 then _ else _) = RESET_STATE.DTR_HIGH
        rw [hand1, if_neg h]
  · intro h
    obtain ⟨EP, bdt, pma, vb, ct, nb, ro, rbi, rbo, mnb, ldr, rs⟩ := s
    cases rs <;>
      · show (if (bb0 &&& (CONTROL_LINE_DTR ||| CONTROL_LINE_RTS)) &&& CONTROL_LINE_DTR
              = 0 then _ else _) = _
        rw [hand1, if_pos h]

/-! ## TX flow control (claims C2, C4) -/

/-- Characterization of an accepting `usb_cdcacm_tx` call: with no TX in
flight and a nonzero request, it accepts `min len (VCOM_TX_EPSIZE / 2)`
bytes, copies them to the TX PMA buffer, records the count in the BDT TX
count slot and in `countTx`, and marks the TX endpoint VALID. -/
theorem tx_spec_pos (s : CdcState) (buf : Nat → Nat) (len : Nat)
    (h0 : s.countTx = 0) (hl : len ≠ 0) :
    usb_cdcacm_tx s buf len =
      (min len (VCOM_TX_EPSIZE / 2),
       { s with
         pma := usb_copy_to_pma s.pma buf (min len (VCOM_TX_EPSIZE / 2)) VCOM_TX_ADDR
         bdt := usb_set_ep_tx_count s.bdt BTABLE_ADDRESS VCOM_TX_ENDP
           (min len (VCOM_TX_EPSIZE / 2))
         countTx := min len (VCOM_TX_EPSIZE / 2)
         EP := usb_set_ep_tx_stat s.EP VCOM_TX_ENDP USB_EP_STAT_TX_VALID }) := by
  have hvt : VCOM_TX_EPSIZE / 2 = 32 := rfl
  have hmin : (if len > VCOM_TX_EPSIZE / 2 then VCOM_TX_EPSIZE / 2 else len)
      = min len (VCOM_TX_EPSIZE / 2) := by
    rcases le_or_lt len (VCOM_TX_EPSIZE / 2) with h | h
    · rw [if_neg (by omega), Nat.min_eq_left h]
    · rw [if_pos h, Nat.min_eq_right (by omega)]
  have hne : min len (VCOM_TX_EPSIZE / 2) ≠ 0 := by
    rw [hvt] at hmin ⊢
    omega
  unfold usb_cdcacm_tx
  rw [if_neg (fun hh => hh h0), hmin, if_pos hne]
  simp [h0]

/-- With no TX in flight, a zero-length `usb_cdcacm_tx` call returns 0 and
leaves the state unchanged. -/
theorem tx_spec_zero (s : CdcState) (buf : Nat → Nat) (len : Nat)
    (h0 : s.countTx = 0) (hl : len = 0) :
    usb_cdcacm_tx s buf len = (0, s) := by
  subst hl
  unfold usb_cdcacm_tx
  rw [if_neg (fun hh => hh h0)]
  rfl

/-- While a TX is in flight, `usb_cdcacm_tx` rejects: it returns 0 and the
state is untouched. -/
theorem tx_spec_busy (s : CdcState) (buf : Nat → Nat) (len : Nat)
    (h : s.countTx ≠ 0) :
    usb_cdcacm_tx s buf len = (0, s) := by
  unfold usb_cdcacm_tx
  rw [if_pos h]

/-- Events of the TX direction: application-context `transmit` calls and
the interrupt-context TX-complete callback. -/
inductive TxEvent where
  | transmit (buf : Nat → Nat) (len : Nat)
  | txComplete

def stepTx (s : CdcState) : TxEvent → CdcState
  | TxEvent.transmit buf len => (usb_cdcacm_tx s buf len).2
  | TxEvent.txComplete => vcomDataTxCb s

/-- C2: while `countTx` is nonzero every `usb_cdcacm_tx` call returns 0 and
leaves all state unchanged; a call accepting `n > 0` bytes sets `countTx`
to exactly `n`; `vcomDataTxCb` sets `countTx` to 0, and among the TX
operations it is the only one that can bring a nonzero `countTx` back
to 0. -/
theorem tx_at_most_one_in_flight (s : CdcState) (buf : Nat → Nat) (len : Nat) :
    (s.countTx ≠ 0 → usb_cdcacm_tx s buf len = (0, s)) ∧
    (s.countTx = 0 → 0 < (usb_cdcacm_tx s buf len).1 →
      (usb_cdcacm_tx s buf len).2.countTx = (usb_cdcacm_tx s buf len).1) ∧
    (vcomDataTxCb s).countTx = 0 ∧
    (∀ e : TxEvent, s.countTx ≠ 0 → (stepTx s e).countTx = 0
      → e = TxEvent.txComplete) := by
  refine ⟨fun h => tx_spec_busy s buf len h, ?_, rfl, ?_⟩
  · intro h0 hpos
    rcases Nat.eq_zero_or_pos len with hl | hl
    · rw [tx_spec_zero s buf len h0 hl] at hpos
      exact absurd hpos (by norm_num)
    · rw [tx_spec_pos s buf len h0 (by omega)]
  · intro e h hz
    cases e with
    | transmit buf2 len2 =>
      rw [show stepTx s (TxEvent.transmit buf2 len2) = (usb_cdcacm_tx s buf2 len2).2
          from rfl, tx_spec_busy s buf2 len2 h] at hz
      exact absurd hz h
    | txComplete => rfl

/-- Witness for C2 at concrete inputs. -/
theorem tx_at_most_one_in_flight_w :
    initState.countTx = 0 ∧
    ((initState.countTx = 0 → 0 < (usb_cdcacm_tx initState (fun _ => 7) 5).1 →
      (usb_cdcacm_tx initState (fun _ => 7) 5).2.countTx
        = (usb_cdcacm_tx initState (fun _ => 7) 5).1)) := by
  refine ⟨rfl, ?_⟩
  exact (tx_at_most_one_in_flight initState (fun _ => 7) 5).2.1

/-- State used as the C4 counterexample: no TX in flight, but a stale BDT
TX count of 5 from a previous (completed) transfer. -/
def c4state : CdcState :=
  { initState with
    bdt := updFn initState.bdt (usb_ep_tx_count_ptr BTABLE_ADDRESS VCOM_TX_ENDP) 5 }

/-- Counterexample to C4 as stated: with `countTx = 0`, a call with
`len = 0` accepts `min 0 (VCOM_TX_EPSIZE / 2) = 0` bytes and returns 0, but
does not record that count (0) in the BDT TX count slot — the stale value 5
remains. -/
theorem tx_zero_len_does_not_record :
    c4state.countTx = 0 ∧
    (usb_cdcacm_tx c4state (fun _ => 0) 0).1 = min 0 (VCOM_TX_EPSIZE / 2) ∧
    ¬ ((usb_cdcacm_tx c4state (fun _ => 0) 0).2.bdt
        (usb_ep_tx_count_ptr BTABLE_ADDRESS VCOM_TX_ENDP)
       = min 0 (VCOM_TX_EPSIZE / 2)) := by
  refine ⟨rfl, rfl, ?_⟩
  intro h
  exact absurd h (by decide)

/-- C4 (amended): with no TX in flight, `usb_cdcacm_tx` accepts exactly
`min len (VCOM_TX_EPSIZE / 2)` bytes and returns that count — never the
requested `len` when `len` exceeds the cap.  When the accepted count is
nonzero it copies exactly that many bytes to the TX PMA buffer (leaving all
other PMA bytes untouched) and records the count in the BDT TX count slot
and in `countTx`; a `len = 0` call returns 0 and leaves the state
unchanged (in particular the BDT TX count slot keeps its previous
value). -/
theorem tx_caps_and_records (s : CdcState) (buf : Nat → Nat) (len : Nat)
    (h0 : s.countTx = 0) :
    (usb_cdcacm_tx s buf len).1 = min len (VCOM_TX_EPSIZE / 2) ∧
    (len > VCOM_TX_EPSIZE / 2 → (usb_cdcacm_tx s buf len).1 ≠ len) ∧
    ((usb_cdcacm_tx s buf len).1 ≠ 0 →
      (usb_cdcacm_tx s buf len).2.countTx = (usb_cdcacm_tx s buf len).1 ∧
      (usb_cdcacm_tx s buf len).2.bdt (usb_ep_tx_count_ptr BTABLE_ADDRESS VCOM_TX_ENDP)
        = (usb_cdcacm_tx s buf len).1 ∧
      (∀ i, i < (usb_cdcacm_tx s buf len).1 →
        (usb_cdcacm_tx s buf len).2.pma (VCOM_TX_ADDR + i) = buf i) ∧
      (∀ a, a < VCOM_TX_ADDR ∨ VCOM_TX_ADDR + (usb_cdcacm_tx s buf len).1 ≤ a →
        (usb_cdcacm_tx s buf len).2.pma a = s.pma a)) ∧
    ((usb_cdcacm_tx s buf len).1 = 0 → (usb_cdcacm_tx s buf len).2 = s) := by
  have hvt : VCOM_TX_EPSIZE / 2 = 32 := rfl
  rcases Nat.eq_zero_or_pos len with hl | hl
  · rw [tx_spec_zero s buf len h0 hl]
    subst hl
    refine ⟨rfl, by omega, ?_, fun _ => rfl⟩
    intro h
    exact absurd rfl h
  · rw [tx_spec_pos s buf len h0 (by omega)]
    refine ⟨rfl, by rw [hvt]; omega, ?_, by rw [hvt]; omega⟩
    intro hne
    refine ⟨rfl, ?_, ?_, ?_⟩
    · show usb_set_ep_tx_count s.bdt BTABLE_ADDRESS VCOM_TX_ENDP
        (min len (VCOM_TX_EPSIZE / 2)) (usb_ep_tx_count_ptr BTABLE_ADDRESS VCOM_TX_ENDP)
        = min len (VCOM_TX_EPSIZE / 2)
      unfold usb_set_ep_tx_count updFn
      rw [if_pos rfl]
    · intro i hi
      show usb_copy_to_pma s.pma buf (min len (VCOM_TX_EPSIZE / 2)) VCOM_TX_ADDR
        (VCOM_TX_ADDR + i) = buf i
      unfold usb_copy_to_pma
      rw [if_pos (by omega), show VCOM_TX_ADDR + i - VCOM_TX_ADDR = i from by omega]
    · intro a ha
      show usb_copy_to_pma s.pma buf (min len (VCOM_TX_EPSIZE / 2)) VCOM_TX_ADDR a
        = s.pma a
      unfold usb_copy_to_pma
      rw [if_neg (by omega)]

/-- Witness for C4 at concrete inputs: requesting 40 bytes accepts only
32. -/
theorem tx_caps_and_records_w :
    initState.countTx = 0 ∧
    (usb_cdcacm_tx initState (fun _ => 9) 40).1 = min 40 (VCOM_TX_EPSIZE / 2) := by
  refine ⟨rfl, ?_⟩
  exact (tx_caps_and_records initState (fun _ => 9) 40 rfl).1

/-! ## RX flow control: characterizations -/

theorem rx_ret (s : CdcState) (len : Nat) :
    (if len > s.newBytes then s.newBytes else len) = min len s.newBytes := by
  rcases le_or_lt len s.newBytes with h | h
  · rw [if_neg (by omega), Nat.min_eq_left h]
  · rw [if_pos h, Nat.min_eq_right (by omega)]

/-- A draining `usb_cdcacm_rx` call (`s.newBytes ≤ len`): returns all
available bytes and re-arms the RX endpoint — expected count back to
`VCOM_RX_EPSIZE`, status VALID, read cursor reset to 0. -/
theorem rx_spec_rearm (s : CdcState) (len : Nat) (h : s.newBytes ≤ len) :
    usb_cdcacm_rx s len =
      ((List.range s.newBytes).map fun i => s.vcomBufferRx (i + s.rx_offset),
       s.newBytes,
       { s with
         newBytes := 0
         rx_offset := 0
         bdt := usb_set_ep_rx_count s.bdt BTABLE_ADDRESS VCOM_RX_ENDP VCOM_RX_EPSIZE
         EP := usb_set_ep_rx_stat s.EP VCOM_RX_ENDP USB_EP_STAT_RX_VALID }) := by
  have hret : (if len > s.newBytes then s.newBytes else len) = s.newBytes := by
    rw [rx_ret, Nat.min_eq_right h]
  simp only [usb_cdcacm_rx, hret]
  rw [if_pos (by omega)]
  simp

/-- A partial `usb_cdcacm_rx` call (`len < s.newBytes`): returns `len`
bytes, advances the cursor, decrements the count, and touches nothing
else. -/
theorem rx_spec_short (s : CdcState) (len : Nat) (h : len < s.newBytes) :
    usb_cdcacm_rx s len =
      ((List.range len).map fun i => s.vcomBufferRx (i + s.rx_offset),
       len,
       { s with newBytes := s.newBytes - len, rx_offset := s.rx_offset + len }) := by
  have hret : (if len > s.newBytes then s.newBytes else len) = len := by
    rw [rx_ret, Nat.min_eq_left (by omega)]
  simp only [usb_cdcacm_rx, hret]
  rw [if_neg (by omega)]

/-- `vcomDataRxCb` unfolded. -/
theorem rxCb_spec (s : CdcState) :
    vcomDataRxCb s =
      { s with
        newBytes := usb_get_ep_rx_count s.bdt BTABLE_ADDRESS VCOM_RX_ENDP
        EP := usb_set_ep_rx_stat s.EP VCOM_RX_ENDP USB_EP_STAT_RX_NAK
        vcomBufferRx := usb_copy_from_pma s.vcomBufferRx s.pma
          (usb_get_ep_rx_count s.bdt BTABLE_ADDRESS VCOM_RX_ENDP) VCOM_RX_ADDR } := rfl

theorem set_rx_stat_self_lt (EP : Nat → Nat) (ep status : Nat) :
    usb_set_ep_rx_stat EP ep status ep < 65536 := by
  unfold usb_set_ep_rx_stat updFn
  rw [if_pos rfl]
  exact epRegWrite_lt _ _

theorem statRx_after_NAK (EP : Nat → Nat) (ep : Nat) (h : EP ep < 65536) :
    getStatRx (usb_set_ep_rx_stat EP ep USB_EP_STAT_RX_NAK ep) = 2 := by
  unfold usb_set_ep_rx_stat updFn
  rw [if_pos rfl, show (USB_EP_STAT_RX_NAK : Nat) = 2 <<< 12 from by decide]
  exact (rxStatFields (EP ep) 2 h (by norm_num)).1

theorem statRx_after_VALID (EP : Nat → Nat) (ep : Nat) (h : EP ep < 65536) :
    getStatRx (usb_set_ep_rx_stat EP ep USB_EP_STAT_RX_VALID ep) = 3 := by
  unfold usb_set_ep_rx_stat updFn
  rw [if_pos rfl, show (USB_EP_STAT_RX_VALID : Nat) = 3 <<< 12 from by decide]
  exact (rxStatFields (EP ep) 3 h (by norm_num)).1

/-! ## Reachability for the RX direction (claim C3) -/

/-- States reachable from the post-reset state by interleaving
`usb_cdcacm_rx` calls with RX completions (a packet arrival recorded by the
hardware followed by `vcomDataRxCb`). -/
inductive ReachRx : CdcState → Prop where
  | init : ReachRx (usbReset initState)
  | rx (s : CdcState) (len : Nat) : ReachRx s → ReachRx (usb_cdcacm_rx s len).2.2
  | cb (s : CdcState) (data : List Nat) : ReachRx s →
      ReachRx (vcomDataRxCb (rxPacketArrives s data))

theorem reachRx_inv {s : CdcState} (h : ReachRx s) :
    s.EP VCOM_RX_ENDP < 65536 ∧
    (s.newBytes ≠ 0 → getStatRx (s.EP VCOM_RX_ENDP) = 2) := by
  induction h with
  | init =>
    refine ⟨by decide, fun hh => absurd (show (usbReset initState).newBytes = 0 from rfl) hh⟩
  | rx s0 len hr ih =>
    rcases le_or_lt s0.newBytes len with h | h
    · rw [rx_spec_rearm s0 len h]
      dsimp only
      exact ⟨set_rx_stat_self_lt _ _ _, fun hh => absurd rfl hh⟩
    · rw [rx_spec_short s0 len h]
      dsimp only
      exact ⟨ih.1, fun _ => ih.2 (by omega)⟩
  | cb s0 data hr ih =>
    rw [rxCb_spec]
    refine ⟨?_, fun _ => ?_⟩
    · show usb_set_ep_rx_stat (rxPacketArrives s0 data).EP VCOM_RX_ENDP
        USB_EP_STAT_RX_NAK VCOM_RX_ENDP < 65536
      exact set_rx_stat_self_lt _ _ _
    · show getStatRx (usb_set_ep_rx_stat (rxPacketArrives s0 data).EP VCOM_RX_ENDP
        USB_EP_STAT_RX_NAK VCOM_RX_ENDP) = 2
      exact statRx_after_NAK _ _ (show (rxPacketArrives s0 data).EP VCOM_RX_ENDP < 65536 from ih.1)

/-- C3: in every state reachable by interleaving the RX-complete callback
with `usb_cdcacm_rx` calls, `newBytes > 0` implies the RX endpoint status
is NAK (code 2); a call that drains `newBytes` to 0 re-arms the endpoint —
status VALID (code 3), expected RX count restored to `VCOM_RX_EPSIZE`, read
cursor reset to 0 — and a call that leaves `newBytes > 0` keeps the status
NAK and changes neither the endpoint register bank nor the BDT. -/
theorem rx_nak_until_drained {s : CdcState} (h : ReachRx s) :
    (0 < s.newBytes → getStatRx (s.EP VCOM_RX_ENDP) = 2) ∧
    (∀ len : Nat,
      ((usb_cdcacm_rx s len).2.2.newBytes = 0 →
        getStatRx ((usb_cdcacm_rx s len).2.2.EP VCOM_RX_ENDP) = 3 ∧
        (usb_cdcacm_rx s len).2.2.bdt (usb_ep_rx_count_ptr BTABLE_ADDRESS VCOM_RX_ENDP)
          = VCOM_RX_EPSIZE ∧
        (usb_cdcacm_rx s len).2.2.rx_offset = 0) ∧
      ((usb_cdcacm_rx s len).2.2.newBytes ≠ 0 →
        getStatRx ((usb_cdcacm_rx s len).2.2.EP VCOM_RX_ENDP) = 2 ∧
        (usb_cdcacm_rx s len).2.2.EP = s.EP ∧
        (usb_cdcacm_rx s len).2.2.bdt = s.bdt)) := by
  have inv := reachRx_inv h
  refine ⟨fun hpos => inv.2 (by omega), fun len => ?_⟩
  rcases le_or_lt s.newBytes len with hc | hc
  · rw [rx_spec_rearm s len hc]
    dsimp only
    refine ⟨fun _ => ⟨statRx_after_VALID _ _ inv.1, ?_, rfl⟩, fun hh => absurd rfl hh⟩
    show usb_set_ep_rx_count s.bdt BTABLE_ADDRESS VCOM_RX_ENDP VCOM_RX_EPSIZE
      (usb_ep_rx_count_ptr BTABLE_ADDRESS VCOM_RX_ENDP) = VCOM_RX_EPSIZE
    unfold usb_set_ep_rx_count updFn
    rw [if_pos rfl]
  · rw [rx_spec_short s len hc]
    dsimp only
    exact ⟨fun hh => absurd hh (by omega), fun _ => ⟨inv.2 (by omega), rfl, rfl⟩⟩

/-- Witness for C3: at the post-reset state a (trivially draining) call
leaves the endpoint re-armed — status VALID, count 64, cursor 0. -/
theorem rx_nak_until_drained_w :
    getStatRx ((usb_cdcacm_rx (usbReset initState) 0).2.2.EP VCOM_RX_ENDP) = 3 ∧
    (usb_cdcacm_rx (usbReset initState) 0).2.2.bdt
      (usb_ep_rx_count_ptr BTABLE_ADDRESS VCOM_RX_ENDP) = VCOM_RX_EPSIZE ∧
    (usb_cdcacm_rx (usbReset initState) 0).2.2.rx_offset = 0 :=
  ((rx_nak_until_drained ReachRx.init).2 0).1 (by decide)

/-! ## Bounded reachability (claim C10) -/

/-- States reachable from reset when every RX completion delivers at most
`VCOM_RX_EPSIZE` bytes and arrives only while `newBytes = 0` (the NAK
discipline). -/
inductive ReachRxB : CdcState → Prop where
  | init : ReachRxB (usbReset initState)
  | rx (s : CdcState) (len : Nat) : ReachRxB s → ReachRxB (usb_cdcacm_rx s len).2.2
  | cb (s : CdcState) (data : List Nat) : ReachRxB s → s.newBytes = 0 →
      data.length ≤ VCOM_RX_EPSIZE →
      ReachRxB (vcomDataRxCb (rxPacketArrives s data))

theorem reachRxB_inv {s : CdcState} (h : ReachRxB s) :
    s.rx_offset + s.newBytes ≤ VCOM_RX_EPSIZE ∧
    (s.newBytes = 0 → s.rx_offset = 0) := by
  induction h with
  | init => exact ⟨by decide, fun _ => rfl⟩
  | rx s0 len hr ih =>
    rcases le_or_lt s0.newBytes len with h | h
    · rw [rx_spec_rearm s0 len h]
      dsimp only
      exact ⟨by have := ih.1; omega, fun _ => rfl⟩
    · rw [rx_spec_short s0 len h]
      dsimp only
      refine ⟨by have := ih.1; omega, fun hh => absurd hh (by omega)⟩
  | cb s0 data hr h0 hlen ih =>
    rw [rxCb_spec]
    have hoff : (rxPacketArrives s0 data).rx_offset = 0 := ih.2 h0
    have hnb : usb_get_ep_rx_count (rxPacketArrives s0 data).bdt BTABLE_ADDRESS
        VCOM_RX_ENDP ≤ data.length := by
      show usb_get_ep_rx_count
        (usb_set_ep_rx_count s0.bdt BTABLE_ADDRESS VCOM_RX_ENDP data.length)
        BTABLE_ADDRESS VCOM_RX_ENDP ≤ data.length
      unfold usb_get_ep_rx_count usb_set_ep_rx_count updFn
      rw [if_pos rfl]
      exact le_trans Nat.and_le_left (Nat.mod_le _ _)
    constructor
    · show (rxPacketArrives s0 data).rx_offset
        + usb_get_ep_rx_count (rxPacketArrives s0 data).bdt BTABLE_ADDRESS VCOM_RX_ENDP
        ≤ VCOM_RX_EPSIZE
      omega
    · intro _
      exact hoff

/-- C10: in every state reachable from reset under the bounded-delivery
discipline, `rx_offset + newBytes ≤ VCOM_RX_EPSIZE`, so every ring-buffer
index `i + rx_offset` read by `usb_cdcacm_rx` lies within the 192-byte
`vcomBufferRx`. -/
theorem rx_cursor_in_bounds {s : CdcState} (h : ReachRxB s) :
    s.rx_offset + s.newBytes ≤ VCOM_RX_EPSIZE ∧
    (∀ len i : Nat, i < (usb_cdcacm_rx s len).2.1 → i + s.rx_offset < VCOM_RX_BUFLEN) := by
  have inv := reachRxB_inv h
  have hbuf : VCOM_RX_EPSIZE ≤ VCOM_RX_BUFLEN := by decide
  refine ⟨inv.1, fun len i hi => ?_⟩
  have hret : (usb_cdcacm_rx s len).2.1 = min len s.newBytes := by
    rcases le_or_lt s.newBytes len with hc | hc
    · rw [rx_spec_rearm s len hc, Nat.min_eq_right hc]
    · rw [rx_spec_short s len hc, Nat.min_eq_left (by omega)]

  rw [hret] at hi
  have := inv.1
  omega

/-- Witness for C10 at the post-reset state. -/
theorem rx_cursor_in_bounds_w :
    (usbReset initState).rx_offset + (usbReset initState).newBytes ≤ VCOM_RX_EPSIZE :=
  (rx_cursor_in_bounds ReachRxB.init).1

/-! ## RX callback memory safety (claim C9) -/

/-- State exhibiting that the 10-bit mask alone does not protect the ring
buffer: the BDT rx_count slot holds 1023. -/
def c9state : CdcState :=
  { initState with
    bdt := updFn initState.bdt (usb_ep_rx_count_ptr BTABLE_ADDRESS VCOM_RX_ENDP) 1023
    pma := fun _ => 1 }

/-- C9: under the precondition that the hardware-reported RX count is at
most `VCOM_RX_EPSIZE`, `vcomDataRxCb` writes only within the 192-byte
`vcomBufferRx`; the 0x3FF mask in `usb_get_ep_rx_count` by itself bounds
the count only by 1023, which exceeds the buffer length, so the callback's
memory safety rests on the precondition, not on the mask — from `c9state`
(reported count 1023) the callback writes index 500, outside the
buffer. -/
theorem rx_callback_write_bounds :
    (∀ s : CdcState,
      usb_get_ep_rx_count s.bdt BTABLE_ADDRESS VCOM_RX_ENDP ≤ VCOM_RX_EPSIZE →
      ∀ j, (vcomDataRxCb s).vcomBufferRx j ≠ s.vcomBufferRx j → j < VCOM_RX_BUFLEN) ∧
    (∀ (mem : Nat → Nat) (btable ep : Nat), usb_get_ep_rx_count mem btable ep ≤ 1023) ∧
    (VCOM_RX_BUFLEN < 1023) ∧
    (usb_get_ep_rx_count c9state.bdt BTABLE_ADDRESS VCOM_RX_ENDP = 1023 ∧
     (vcomDataRxCb c9state).vcomBufferRx 500 ≠ c9state.vcomBufferRx 500 ∧
     ¬ (500 < VCOM_RX_BUFLEN)) := by
  refine ⟨?_, ?_, by decide, by decide, by decide, by decide⟩
  · intro s hle j hne
    rw [rxCb_spec] at hne
    have hj : (usb_copy_from_pma s.vcomBufferRx s.pma
        (usb_get_ep_rx_count s.bdt BTABLE_ADDRESS VCOM_RX_ENDP) VCOM_RX_ADDR) j
        ≠ s.vcomBufferRx j := hne
    unfold usb_copy_from_pma at hj
    by_cases hcase : j < usb_get_ep_rx_count s.bdt BTABLE_ADDRESS VCOM_RX_ENDP
    · have hbuf : VCOM_RX_EPSIZE < VCOM_RX_BUFLEN := by decide
      omega
    · rw [if_neg hcase] at hj
      exact absurd rfl hj
  · intro mem btable ep
    exact Nat.and_le_right

/-- Witness for C9's guarded part at a concrete state. -/
theorem rx_callback_write_bounds_w :
    usb_get_ep_rx_count initState.bdt BTABLE_ADDRESS VCOM_RX_ENDP ≤ VCOM_RX_EPSIZE ∧
    (∀ j, (vcomDataRxCb initState).vcomBufferRx j = initState.vcomBufferRx j
      ∨ j < VCOM_RX_BUFLEN) := by
  refine ⟨by decide, fun j => ?_⟩
  by_cases hj : (vcomDataRxCb initState).vcomBufferRx j = initState.vcomBufferRx j
  · exact Or.inl hj
  · exact Or.inr (rx_callback_write_bounds.1 initState (by decide) j hj)

/-! ## RX round trip (claim C5) -/

/-- Successive `usb_cdcacm_rx` calls with the request lengths `reqs`:
returns the list of per-call outputs and the final state. -/
def rxRun (s : CdcState) : List Nat → List (List Nat) × CdcState
  | [] => ([], s)
  | l :: ls =>
    let r := usb_cdcacm_rx s l
    let rest := rxRun r.2.2 ls
    (r.1 :: rest.1, rest.2)

/-- The per-call return counts dictated by the `min (requested, available)`
rule, starting from `avail` available bytes. -/
def expectedRets (avail : Nat) : List Nat → List Nat
  | [] => []
  | l :: ls => min l avail :: expectedRets (avail - min l avail) ls

theorem rx_ret_min (t : CdcState) (len : Nat) :
    (usb_cdcacm_rx t len).2.1 = min len t.newBytes ∧
    (usb_cdcacm_rx t len).2.2.newBytes = t.newBytes - min len t.newBytes := by
  rcases le_or_lt t.newBytes len with hc | hc
  · rw [rx_spec_rearm t len hc]
    dsimp only
    rw [Nat.min_eq_right hc]
    exact ⟨rfl, by omega⟩
  · rw [rx_spec_short t len hc]
    dsimp only
    rw [Nat.min_eq_left (by omega)]
    exact ⟨rfl, rfl⟩

theorem rangeMapSlice (data : List Nat) (f : Nat → Nat) (off r : Nat)
    (hbound : off + r ≤ data.length)
    (hagree : ∀ i (hi : i < data.length), f i = data[i]) :
    (List.range r).map (fun i => f (i + off)) = (data.drop off).take r := by
  apply List.ext_getElem
  · simp only [List.length_map, List.length_range, List.length_take, List.length_drop]
    omega
  · intro n h1 h2
    have hn : n < r := by simpa using h1
    simp only [List.getElem_map, List.getElem_range, List.getElem_take, List.getElem_drop]
    exact (congrArg f (Nat.add_comm n off)).trans (hagree (off + n) (by omega))

theorem dropTakeAppend (xs : List Nat) (a m k : Nat) :
    (xs.drop a).take m ++ (xs.drop (a + m)).take k = (xs.drop a).take (m + k) := by
  rw [List.take_add, List.drop_drop]

theorem rxRun_spec (data : List Nat) (reqs : List Nat) :
    ∀ s : CdcState,
      s.newBytes ≤ data.length →
      (s.newBytes ≠ 0 → s.rx_offset = data.length - s.newBytes) →
      (∀ i (hi : i < data.length), s.vcomBufferRx i = data[i]) →
      (rxRun s reqs).1.map List.length = expectedRets s.newBytes reqs ∧
      (rxRun s reqs).1.flatten
        = (data.drop (data.length - s.newBytes)).take
            ((expectedRets s.newBytes reqs).sum) ∧
      (rxRun s reqs).2.newBytes = s.newBytes - (expectedRets s.newBytes reqs).sum := by
  induction reqs with
  | nil =>
    intro s h1 h2 h3
    refine ⟨rfl, ?_, rfl⟩
    simp [rxRun, expectedRets]
  | cons l ls ih =>
    intro s h1 h2 h3
    rcases le_or_lt s.newBytes l with hc | hc
    · -- the call drains everything and re-arms
      simp only [rxRun]
      rw [rx_spec_rearm s l hc]
      dsimp only
      obtain ⟨ihm, ihj, ihn⟩ := ih
        { s with
          newBytes := 0
          rx_offset := 0
          bdt := usb_set_ep_rx_count s.bdt BTABLE_ADDRESS VCOM_RX_ENDP VCOM_RX_EPSIZE
          EP := usb_set_ep_rx_stat s.EP VCOM_RX_ENDP USB_EP_STAT_RX_VALID }
        (Nat.zero_le _) (fun hh => absurd rfl hh) (fun i hi => h3 i hi)
      dsimp only at ihm ihj ihn
      rw [Nat.sub_zero, List.drop_length, List.take_nil] at ihj
      refine ⟨?_, ?_, ?_⟩
      · simp only [List.map_cons, List.length_map, List.length_range, expectedRets,
          Nat.min_eq_right hc, Nat.sub_self]
        rw [ihm]
      · simp only [List.flatten_cons, expectedRets, Nat.min_eq_right hc, Nat.sub_self,
          List.sum_cons]
        rw [ihj, List.append_nil]
        rcases Nat.eq_zero_or_pos s.newBytes with h0 | h0
        · rw [h0]
          simp [List.drop_length]
        · rw [h2 (by omega)]
          rw [rangeMapSlice data s.vcomBufferRx (data.length - s.newBytes) s.newBytes
            (by omega) h3]
          rw [List.take_of_length_le (by simp only [List.length_take, List.length_drop]; omega),
            List.take_of_length_le (by simp only [List.length_take, List.length_drop]; omega)]
      · simp only [expectedRets, Nat.min_eq_right hc, Nat.sub_self, List.sum_cons]
        rw [ihn]
        omega
    · -- partial read, endpoint stays NAK
      simp only [rxRun]
      rw [rx_spec_short s l hc]
      dsimp only
      have hnb0 : s.newBytes ≠ 0 := by omega
      obtain ⟨ihm, ihj, ihn⟩ := ih
        { s with newBytes := s.newBytes - l, rx_offset := s.rx_offset + l }
        (by dsimp only; omega)
        (by
          dsimp only
          intro _
          rw [h2 hnb0]
          omega)
        (fun i hi => h3 i hi)
      dsimp only at ihm ihj ihn
      have hmin : min l s.newBytes = l := Nat.min_eq_left (by omega)
      refine ⟨?_, ?_, ?_⟩
      · simp only [List.map_cons, List.length_map, List.length_range, expectedRets, hmin]
        rw [ihm]
      · simp only [List.flatten_cons, expectedRets, hmin, List.sum_cons]
        rw [ihj, h2 hnb0]
        rw [rangeMapSlice data s.vcomBufferRx (data.length - s.newBytes) l (by omega) h3]
        rw [show data.length - (s.newBytes - l) = (data.length - s.newBytes) + l from by omega]
        exact dropTakeAppend data (data.length - s.newBytes) l _
      · simp only [expectedRets, hmin, List.sum_cons]
        rw [ihn]
        omega

/-- C5: after one RX completion delivers the packet `data` (at most a full
packet), a sequence of `usb_cdcacm_rx` calls returns exactly
`min (requested, newBytes)` bytes per call with `newBytes` decreasing by the
returned count each time (never an error), and the bytes read out across
the calls are exactly the delivered bytes in order. -/
theorem rx_round_trip (data : List Nat) (reqs : List Nat) (s0 : CdcState)
    (hlen : data.length ≤ VCOM_RX_EPSIZE)
    (hnb : s0.newBytes = 0) (hoff : s0.rx_offset = 0)
    (hbdt : s0.bdt (usb_ep_rx_count_ptr BTABLE_ADDRESS VCOM_RX_ENDP) = data.length)
    (hpma : ∀ i (hi : i < data.length), s0.pma (VCOM_RX_ADDR + i) = data[i]) :
    (∀ (t : CdcState) (len : Nat),
      (usb_cdcacm_rx t len).2.1 = min len t.newBytes ∧
      (usb_cdcacm_rx t len).2.2.newBytes = t.newBytes - min len t.newBytes) ∧
    (rxRun (vcomDataRxCb s0) reqs).1.map List.length = expectedRets data.length reqs ∧
    (rxRun (vcomDataRxCb s0) reqs).1.flatten
      = data.take ((expectedRets data.length reqs).sum) ∧
    (rxRun (vcomDataRxCb s0) reqs).2.newBytes
      = data.length - (expectedRets data.length reqs).sum := by
  have hv : VCOM_RX_EPSIZE = 64 := rfl
  have hcount : usb_get_ep_rx_count s0.bdt BTABLE_ADDRESS VCOM_RX_ENDP = data.length := by
    unfold usb_get_ep_rx_count
    rw [hbdt, Nat.mod_eq_of_lt (by omega),
      show (0x3FF : Nat) = 2 ^ 10 - 1 from by norm_num,
      Nat.and_pow_two_sub_one_eq_mod, Nat.mod_eq_of_lt (by omega)]
  have hspec := rxCb_spec s0
  rw [hcount] at hspec
  have h1 : (vcomDataRxCb s0).newBytes = data.length := by rw [hspec]
  have h2 : (vcomDataRxCb s0).rx_offset = s0.rx_offset := by rw [hspec]
  have h3 : ∀ i (hi : i < data.length), (vcomDataRxCb s0).vcomBufferRx i = data[i] := by
    intro i hi
    rw [hspec]
    show usb_copy_from_pma s0.vcomBufferRx s0.pma data.length VCOM_RX_ADDR i = data[i]
    unfold usb_copy_from_pma
    rw [if_pos hi]
    exact hpma i hi
  obtain ⟨hm, hj, hn⟩ := rxRun_spec data reqs (vcomDataRxCb s0)
    (by omega) (fun _ => by rw [h2, hoff]; omega) h3
  rw [h1] at hm hj hn
  rw [Nat.sub_self, List.drop_zero] at hj
  exact ⟨rx_ret_min, hm, hj, hn⟩

/-- Concrete delivered packet and prepared state for the C5 witness. -/
def c5data : List Nat := [10, 20, 30]

def c5state : CdcState :=
  { initState with
    bdt := updFn initState.bdt (usb_ep_rx_count_ptr BTABLE_ADDRESS VCOM_RX_ENDP) 3
    pma := fun a => if a = 0x110 then 10 else if a = 0x111 then 20
      else if a = 0x112 then 30 else 0 }

/-- Witness for C5: delivering [10, 20, 30] and reading with requests
[2, 5] round-trips the bytes in order. -/
theorem rx_round_trip_w :
    c5data.length ≤ VCOM_RX_EPSIZE ∧
    (rxRun (vcomDataRxCb c5state) [2, 5]).1.flatten
      = c5data.take ((expectedRets c5data.length [2, 5]).sum) := by
  refine ⟨by decide, ?_⟩
  exact (rx_round_trip c5data [2, 5] c5state (by decide) rfl rfl (by decide)
    (by decide)).2.2.1

/-- Witness for C6 at a concrete state and value. -/
theorem set_control_line_state_dtr_machine_w :
    (3 : Nat) &&& CONTROL_LINE_DTR ≠ 0 ∧
    (usbNoDataSetup initState SET_CONTROL_LINE_STATE 3).2.reset_state
      = RESET_STATE.DTR_HIGH := by
  refine ⟨by decide, ?_⟩
  exact (set_control_line_state_dtr_machine initState 3).2.2.1 (by decide)
